import Mathlib

/-!
Shallow embedding of `src/serde.rs` from the `mpt-circuit` repository:
the row data model (`Hash`, `HashType`, `Row`), the trace verifier
(`impl Verify for Vec<Row>`), and the row decoders
(`TryFrom<&str> for Hash`, binary big-integer parsing).

Rust `usize` / `BigUint` values are modelled as `Nat` (the verifier performs
no wrapping arithmetic on them); `[u8; 32]` is modelled as a list of byte
values; a Rust panic (index out of bounds / subtraction overflow) is
modelled by `Option`, with `none` standing for the panic.
-/

namespace Mpt

/-- The five node kinds of `HashType` in `src/serde.rs`. -/
inductive HashType where
  | Empty
  | Middle
  | LeafExt
  | LeafExtFinal
  | Leaf
deriving DecidableEq

/-- `Hash([u8; 32])`: a 32-byte hash, modelled as its list of byte values. -/
structure Hash where
  bytes : List Nat
deriving DecidableEq

/-- `Hash::zero()`: the all-zero 32-byte hash. -/
def Hash.zero : Hash := ⟨List.replicate 32 0⟩

/-- `BigUint::from(hash)` = `BigUint::from_bytes_le(&hash.0)`:
the hash bytes read as a little-endian unsigned integer. -/
def Hash.toNat (h : Hash) : Nat :=
  h.bytes.foldr (fun b acc => b + 256 * acc) 0

/-- The `Row` struct of `src/serde.rs`. -/
structure Row where
  is_first : Bool
  sib : Hash
  depth : Nat
  path : Nat
  path_acc : Nat
  old_hash_type : HashType
  old_hash : Hash
  old_value : Hash
  new_hash_type : HashType
  new_hash : Hash
  new_value : Hash
  key : Hash
  new_root : Hash
deriving DecidableEq

/-- The `VALID_STATE` table of `verify`. -/
def VALID_STATE : List HashType :=
  [.Empty, .Leaf, .Middle, .LeafExt, .LeafExtFinal]

/-- The `VALID_TRANSACTION` table of `verify`: legal `(previous, current)`
type pairs along a chain of non-first rows. -/
def VALID_TRANSACTION : List (HashType × HashType) :=
  [(.Middle, .Middle),
   (.Middle, .Empty),
   (.Middle, .Leaf),
   (.Middle, .LeafExt),
   (.Middle, .LeafExtFinal),
   (.LeafExt, .LeafExt),
   (.LeafExt, .LeafExtFinal),
   (.LeafExtFinal, .Empty),
   (.LeafExtFinal, .Leaf)]

/-- The `VALID_TRANSITIONS` table of `verify`: legal `(old, new)` type pairs
within one row. -/
def VALID_TRANSITIONS : List (HashType × HashType) :=
  [(.Empty, .Leaf),
   (.Leaf, .Empty),
   (.Leaf, .Leaf),
   (.Middle, .LeafExtFinal),
   (.LeafExtFinal, .Middle),
   (.Middle, .LeafExt),
   (.LeafExt, .Middle),
   (.Middle, .Middle)]

/-- `self[idx - 1]` on a `Vec`: `idx` is a `usize`, so at `idx = 0` the
subtraction overflows (debug) or wraps and indexes out of bounds (release);
either way the access panics, modelled as `none`. -/
def getPrev (rows : List Row) (idx : Nat) : Option Row :=
  if idx = 0 then none else rows[idx - 1]?

/-- Part 1 of `verify`, for one row: checks of hash chaining with the
previous row (skipped on `is_first` rows). -/
def part1Body (rows : List Row) (idx : Nat) (row : Row) : Option Bool :=
  if row.is_first then some true
  else (getPrev rows idx).map fun prev =>
    decide (prev.old_value = row.old_hash) && decide (prev.new_value = row.new_hash)

/-- Part 2.1 of `verify`, for one row: `VALID_STATE` membership on first
rows, `VALID_TRANSACTION` membership against the previous row otherwise. -/
def part2_1Body (rows : List Row) (idx : Nat) (row : Row) : Option Bool :=
  if row.is_first then
    some (decide (row.old_hash_type ∈ VALID_STATE) &&
          decide (row.new_hash_type ∈ VALID_STATE))
  else (getPrev rows idx).map fun prev =>
    decide ((prev.old_hash_type, row.old_hash_type) ∈ VALID_TRANSACTION) &&
    decide ((prev.new_hash_type, row.new_hash_type) ∈ VALID_TRANSACTION)

/-- Part 2.2 of `verify`, for one row: `VALID_TRANSITIONS` membership of the
`(old_hash_type, new_hash_type)` pair. -/
def part2_2Body (row : Row) : Bool :=
  decide ((row.old_hash_type, row.new_hash_type) ∈ VALID_TRANSITIONS)

/-- The `match row.old_hash_type` arm of part 3 of `verify`. -/
def oldShapeOk (row : Row) : Bool :=
  match row.old_hash_type with
  | .Empty => decide (row.old_hash = Hash.zero)
  | .Middle => true
  | .LeafExt => decide (row.old_value = row.old_hash)
  | .LeafExtFinal => decide (row.sib = row.old_hash)
  | .Leaf => true

/-- The `match row.new_hash_type` arm of part 3 of `verify`. -/
def newShapeOk (row : Row) : Bool :=
  match row.new_hash_type with
  | .Empty => decide (row.new_hash = Hash.zero)
  | .Middle => true
  | .LeafExt => decide (row.new_value = row.new_hash)
  | .LeafExtFinal => decide (row.sib = row.new_hash)
  | .Leaf => true

/-- Part 3 of `verify`, for one row: shape checks on both sides. -/
def part3Body (row : Row) : Bool :=
  oldShapeOk row && newShapeOk row

/-- Part 4 path check conditioned on `old_hash_type`. -/
def pathOkOld (row : Row) : Bool :=
  match row.old_hash_type with
  | .Middle | .LeafExt | .LeafExtFinal => decide (row.path = 0) || decide (row.path = 1)
  | _ => true

/-- Part 4 path check conditioned on `new_hash_type`. -/
def pathOkNew (row : Row) : Bool :=
  match row.new_hash_type with
  | .Middle | .LeafExt | .LeafExtFinal => decide (row.path = 0) || decide (row.path = 1)
  | _ => true

/-- Part 4 key check: performed only when the row is the last of the trace
or the next row is `is_first` (`idx == self.len() - 1 || self[idx + 1].is_first`). -/
def keyOk (rows : List Row) (idx : Nat) (row : Row) : Bool :=
  if idx = rows.length - 1 then decide (row.key.toNat = row.path_acc)
  else
    match rows[idx + 1]? with
    | some next => if next.is_first then decide (row.key.toNat = row.path_acc) else true
    | none => true

/-- Part 4 of `verify`, for one row: path-bit domain, depth bookkeeping and
the terminal key check. -/
def part4Body (rows : List Row) (idx : Nat) (row : Row) : Option Bool :=
  if row.is_first then
    some (pathOkOld row && pathOkNew row && decide (row.depth = 0) && keyOk rows idx row)
  else (getPrev rows idx).map fun prev =>
    pathOkOld row && pathOkNew row && decide (row.depth = prev.depth + 1) &&
      keyOk rows idx row

/-- One pass of `verify`: fold a per-row check over the enumerated rows,
conjoining the results into the running `verified` flag; a `none` from the
body is a panic and aborts the whole computation. -/
def checkAll (rows : List Row) (body : Nat → Row → Option Bool) : Option Bool :=
  rows.enum.foldlM (fun verified p => (body p.1 p.2).map fun ok => verified && ok) true

/-- `<Vec<Row> as Verify>::verify` from `src/serde.rs`. Returns `some b` when
the Rust function returns the verdict `b`, and `none` when it panics. -/
def verify (rows : List Row) : Option Bool :=
  if rows.isEmpty then some true
  else do
    let v1 ← checkAll rows (part1Body rows)
    let v2 ← checkAll rows (part2_1Body rows)
    let v3 := rows.all part2_2Body
    let v4 := rows.all part3Body
    let v5 ← checkAll rows (part4Body rows)
    pure (v1 && v2 && v3 && v4 && v5)

/-- Folding a conjunction of optional checks succeeds when every check does,
and then computes the conjunction of all the checks. -/
theorem foldlM_and_some {α : Type} (g : α → Option Bool) (l : List α) :
    ∀ acc : Bool, (∀ a ∈ l, (g a).isSome) →
      l.foldlM (fun v a => (g a).map fun ok => v && ok) acc
        = some (acc && l.all fun a => (g a).getD false) := by
  induction l with
  | nil => intro acc _; simp
  | cons a l ih =>
    intro acc h
    obtain ⟨c, hc⟩ := Option.isSome_iff_exists.mp (h a (List.mem_cons_self a l))
    have h' : ∀ x ∈ l, (g x).isSome := fun x hx => h x (List.mem_cons_of_mem a hx)
    rw [List.foldlM_cons, hc]
    show List.foldlM (fun v a => (g a).map fun ok => v && ok) (acc && c) l = _
    rw [ih (acc && c) h', List.all_cons, hc]
    simp [Bool.and_assoc]

/-- Folding optional checks panics (returns `none`) as soon as one check does. -/
theorem foldlM_and_none {α : Type} (g : α → Option Bool) (l : List α) (a : α) :
    a ∈ l → g a = none →
      ∀ acc : Bool, l.foldlM (fun v x => (g x).map fun ok => v && ok) acc = none := by
  induction l with
  | nil => intro ha; cases ha
  | cons b l ih =>
    intro ha hg acc
    rw [List.foldlM_cons]
    cases hb : g b with
    | none => simp [hb]
    | some c =>
      simp only [hb, Option.map_some', Option.some_bind]
      rcases List.mem_cons.mp ha with h1 | h2
      · subst h1; rw [hb] at hg; cases hg
      · exact ih h2 hg _

/-- A `List.all` is `false` as soon as one member fails the predicate. -/
theorem all_eq_false_of_mem {α : Type} {l : List α} {f : α → Bool} {x : α}
    (hx : x ∈ l) (hfx : f x = false) : l.all f = false := by
  cases h : l.all f
  · rfl
  · rw [List.all_eq_true.mp h x hx] at hfx; cases hfx

/-- One pass of `verify` succeeds when all its per-row checks do, computing
their conjunction. -/
theorem checkAll_eq_some (rows : List Row) (body : Nat → Row → Option Bool)
    (h : ∀ p ∈ rows.enum, (body p.1 p.2).isSome) :
    checkAll rows body = some (rows.enum.all fun p => (body p.1 p.2).getD false) := by
  unfold checkAll
  rw [foldlM_and_some (fun p => body p.1 p.2) rows.enum true h, Bool.true_and]

/-- On a non-zero in-bounds index, `self[idx - 1]` returns the previous row. -/
theorem getPrev_eq (rows : List Row) (idx : Nat) (h1 : idx ≠ 0)
    (h2 : idx < rows.length) :
    getPrev rows idx = some (rows.get ⟨idx - 1, by omega⟩) := by
  unfold getPrev
  rw [if_neg h1, List.getElem?_eq_getElem (by omega)]
  simp [List.get_eq_getElem]

/-- Bundled per-trace verdict of part 1 of `verify`. -/
def pass1 (rows : List Row) : Bool :=
  rows.enum.all fun p => (part1Body rows p.1 p.2).getD false

/-- Bundled per-trace verdict of part 2.1 of `verify`. -/
def pass2 (rows : List Row) : Bool :=
  rows.enum.all fun p => (part2_1Body rows p.1 p.2).getD false

/-- Bundled per-trace verdict of part 4 of `verify`. -/
def pass4 (rows : List Row) : Bool :=
  rows.enum.all fun p => (part4Body rows p.1 p.2).getD false

/-- If the first row of a non-empty trace is not `is_first`, `verify`
panics: part 1 evaluates `self[0 - 1]`. -/
theorem verify_cons_panic (hd : Row) (tl : List Row) (hf : hd.is_first = false) :
    verify (hd :: tl) = none := by
  have hmem : ((0 : Nat), hd) ∈ (hd :: tl).enum :=
    List.mem_enum_iff_getElem?.mpr (by simp)
  have hbody : part1Body (hd :: tl) 0 hd = none := by
    simp [part1Body, hf, getPrev]
  have : checkAll (hd :: tl) (part1Body (hd :: tl)) = none :=
    foldlM_and_none _ _ _ hmem hbody true
  simp [verify, this]

/-- Any enumerated row of a trace headed by an `is_first` row makes every
per-row body of `verify` succeed (no panic). -/
theorem body_isSome (hd : Row) (tl : List Row) (hfirst : hd.is_first = true)
    (idx : Nat) (row : Row) (hp : (idx, row) ∈ (hd :: tl).enum) :
    idx < (hd :: tl).length ∧ (idx = 0 → row.is_first = true) := by
  have hget : (hd :: tl)[idx]? = some row := List.mem_enum_iff_getElem?.mp hp
  obtain ⟨hlt, hval⟩ := List.getElem?_eq_some.mp hget
  refine ⟨hlt, fun h0 => ?_⟩
  subst h0
  simp at hval
  rw [← hval]
  exact hfirst

/-- Part 1 never panics on a trace headed by an `is_first` row. -/
theorem part1Body_isSome (hd : Row) (tl : List Row) (hfirst : hd.is_first = true) :
    ∀ p ∈ (hd :: tl).enum, (part1Body (hd :: tl) p.1 p.2).isSome := by
  rintro ⟨idx, row⟩ hp
  obtain ⟨hlt, h0⟩ := body_isSome hd tl hfirst idx row hp
  by_cases hf : row.is_first = true
  · simp [part1Body, hf]
  · have hidx : idx ≠ 0 := fun h => hf (h0 h)
    simp [part1Body, hf, getPrev_eq _ _ hidx hlt]

/-- Part 2.1 never panics on a trace headed by an `is_first` row. -/
theorem part2_1Body_isSome (hd : Row) (tl : List Row) (hfirst : hd.is_first = true) :
    ∀ p ∈ (hd :: tl).enum, (part2_1Body (hd :: tl) p.1 p.2).isSome := by
  rintro ⟨idx, row⟩ hp
  obtain ⟨hlt, h0⟩ := body_isSome hd tl hfirst idx row hp
  by_cases hf : row.is_first = true
  · simp [part2_1Body, hf]
  · have hidx : idx ≠ 0 := fun h => hf (h0 h)
    simp [part2_1Body, hf, getPrev_eq _ _ hidx hlt]

/-- Part 4 never panics on a trace headed by an `is_first` row. -/
theorem part4Body_isSome (hd : Row) (tl : List Row) (hfirst : hd.is_first = true) :
    ∀ p ∈ (hd :: tl).enum, (part4Body (hd :: tl) p.1 p.2).isSome := by
  rintro ⟨idx, row⟩ hp
  obtain ⟨hlt, h0⟩ := body_isSome hd tl hfirst idx row hp
  by_cases hf : row.is_first = true
  · simp [part4Body, hf]
  · have hidx : idx ≠ 0 := fun h => hf (h0 h)
    simp [part4Body, hf, getPrev_eq _ _ hidx hlt]

/-- Characterization of `verify` on a trace headed by an `is_first` row:
no panic, and the verdict is the conjunction of the five passes. -/
theorem verify_cons (hd : Row) (tl : List Row) (hfirst : hd.is_first = true) :
    verify (hd :: tl)
      = some (pass1 (hd :: tl) && pass2 (hd :: tl) && (hd :: tl).all part2_2Body &&
          (hd :: tl).all part3Body && pass4 (hd :: tl)) := by
  rw [verify, if_neg (by simp)]
  rw [checkAll_eq_some _ _ (part1Body_isSome hd tl hfirst),
      checkAll_eq_some _ _ (part2_1Body_isSome hd tl hfirst),
      checkAll_eq_some _ _ (part4Body_isSome hd tl hfirst)]
  rfl

/-- When `verify` returns a verdict on a non-empty trace, the verdict is the
conjunction of the five passes. -/
theorem verify_some_eq (rows : List Row) (b : Bool) (hv : verify rows = some b)
    (hne : rows ≠ []) :
    b = (pass1 rows && pass2 rows && rows.all part2_2Body &&
          rows.all part3Body && pass4 rows) := by
  obtain ⟨hd, tl, rfl⟩ := List.exists_cons_of_ne_nil hne
  cases hf : hd.is_first with
  | false => rw [verify_cons_panic hd tl hf] at hv; cases hv
  | true =>
    rw [verify_cons hd tl hf] at hv
    exact (Option.some_inj.mp hv).symm

/-- Rows whose index is in bounds are members of the enumeration. -/
theorem mem_enum_of_lt (rows : List Row) (i : Nat) (h : i < rows.length) :
    (i, rows.get ⟨i, h⟩) ∈ rows.enum := by
  apply List.mem_enum_iff_getElem?.mpr
  simp [List.getElem?_eq_getElem h, List.get_eq_getElem]

/-- A 32-byte hash whose first byte is `n` and whose other bytes are zero. -/
def hashN (n : Nat) : Hash := ⟨n :: List.replicate 31 0⟩

/-- A valid single-row trace: a leaf insert into an empty trie. -/
def rowLeafInsert : Row :=
  { is_first := true, sib := Hash.zero, depth := 0, path := 0, path_acc := 0,
    old_hash_type := .Empty, old_hash := Hash.zero, old_value := Hash.zero,
    new_hash_type := .Leaf, new_hash := hashN 1, new_value := hashN 2,
    key := Hash.zero, new_root := Hash.zero }

/-- A row with `is_first = false`; heading a trace with it makes `verify`
panic. -/
def rowNoFirst : Row :=
  { rowLeafInsert with is_first := false }

/-- First operation of a two-operation trace; the hashes it commits to are
unrelated to those of the following operation. -/
def rowOpA : Row :=
  { is_first := true, sib := Hash.zero, depth := 0, path := 0, path_acc := 0,
    old_hash_type := .Leaf, old_hash := hashN 1, old_value := hashN 2,
    new_hash_type := .Leaf, new_hash := hashN 3, new_value := hashN 4,
    key := Hash.zero, new_root := Hash.zero }

/-- Second operation of a two-operation trace: `is_first`, and its hashes do
not chain with `rowOpA`. -/
def rowOpB : Row :=
  { is_first := true, sib := Hash.zero, depth := 0, path := 0, path_acc := 0,
    old_hash_type := .Leaf, old_hash := hashN 5, old_value := hashN 6,
    new_hash_type := .Leaf, new_hash := hashN 7, new_value := hashN 8,
    key := Hash.zero, new_root := Hash.zero }

/-- Head of a chained two-row operation. -/
def rowChainHd : Row :=
  { is_first := true, sib := Hash.zero, depth := 0, path := 0, path_acc := 0,
    old_hash_type := .Middle, old_hash := hashN 9, old_value := hashN 1,
    new_hash_type := .Middle, new_hash := hashN 10, new_value := hashN 2,
    key := Hash.zero, new_root := Hash.zero }

/-- Second row of a chained operation whose `old_hash` does not match the
previous row's `old_value`. -/
def rowChainTlBad : Row :=
  { is_first := false, sib := Hash.zero, depth := 1, path := 0, path_acc := 0,
    old_hash_type := .Leaf, old_hash := hashN 11, old_value := Hash.zero,
    new_hash_type := .Leaf, new_hash := hashN 2, new_value := Hash.zero,
    key := Hash.zero, new_root := Hash.zero }

/-- C9: `verify` applied to the empty row sequence returns `true`. -/
theorem claim_C9 : verify [] = some true := rfl

/-- C1, counterexample: a sequence whose first row has `is_first = false`
does not yield a verdict — `verify` panics (evaluates `self[0 - 1]`),
refuting the claim that every row sequence produces a boolean verdict. -/
theorem claim_C1_counterexample : verify [rowNoFirst] = none := by decide

/-- C1, amended: `verify` completes normally with a boolean verdict on the
empty sequence and on every sequence whose first row has `is_first = true`;
a sequence whose first row has `is_first = false` instead panics. -/
theorem claim_C1 (rows : List Row)
    (h : ∀ r, rows.head? = some r → r.is_first = true) :
    ∃ b, verify rows = some b := by
  cases rows with
  | nil => exact ⟨true, rfl⟩
  | cons hd tl => exact ⟨_, verify_cons hd tl (h hd rfl)⟩

/-- C1, witness: the amended theorem applies to the single-row leaf-insert
trace. -/
theorem claim_C1_witness :
    (∀ r, ([rowLeafInsert].head? = some r → r.is_first = true)) ∧
      ∃ b, verify [rowLeafInsert] = some b :=
  ⟨fun r hr => by cases Option.some.inj hr; rfl,
   claim_C1 [rowLeafInsert] (fun r hr => by cases Option.some.inj hr; rfl)⟩

/-- C2: when `verify` returns a verdict and some row `i + 1` with
`is_first = false` breaks hash chaining with row `i` (`old_value` vs
`old_hash`, or `new_value` vs `new_hash`), the verdict is `false`; and rows
with `is_first = true` are exempt: a trace whose second row starts a new
operation verifies `true` even though neither chaining equality holds. -/
theorem claim_C2 (rows : List Row) (b : Bool) (hv : verify rows = some b)
    (i : Nat) (h : i + 1 < rows.length)
    (hnf : rows[i + 1].is_first = false)
    (hbad : ¬(rows[i].old_value = rows[i + 1].old_hash ∧
              rows[i].new_value = rows[i + 1].new_hash)) :
    b = false ∧ ∃ r0 r1, verify [r0, r1] = some true ∧ r1.is_first = true ∧
      r0.old_value ≠ r1.old_hash ∧ r0.new_value ≠ r1.new_hash := by
  refine ⟨?_, rowOpA, rowOpB, by decide, by decide, by decide, by decide⟩
  have hne : rows ≠ [] := by intro h0; rw [h0] at h; simp at h
  have hb := verify_some_eq rows b hv hne
  have hp1 : pass1 rows = false := by
    apply all_eq_false_of_mem (mem_enum_of_lt rows (i + 1) h)
    show (part1Body rows (i + 1) (rows.get ⟨i + 1, h⟩)).getD false = false
    have hget : rows.get ⟨i + 1, h⟩ = rows[i + 1] := by simp [List.get_eq_getElem]
    rw [hget, part1Body, if_neg (by simp [hnf]), getPrev_eq rows (i + 1) (by omega) h]
    simp only [Option.map_some', Option.getD_some, List.get_eq_getElem,
      Nat.add_sub_cancel]
    by_cases hA : rows[i].old_value = rows[i + 1].old_hash
    · have hB : ¬(rows[i].new_value = rows[i + 1].new_hash) :=
        fun hB => hbad ⟨hA, hB⟩
      simp [hA, hB]
    · simp [hA]
  rw [hb, hp1]
  simp

/-- C2, witness: a chained trace with a broken `old_value`/`old_hash` link at
its second row gets verdict `false`. -/
theorem claim_C2_witness :
    verify [rowChainHd, rowChainTlBad] = some false ∧ (false : Bool) = false :=
  ⟨by decide,
   (claim_C2 [rowChainHd, rowChainTlBad] false (by decide) 0 (by decide)
      (by decide) (by decide)).1⟩

/-- Head of a trace whose second row makes an illegal `Leaf → Middle` type
chain. -/
def rowTypeHd : Row :=
  { is_first := true, sib := Hash.zero, depth := 0, path := 0, path_acc := 0,
    old_hash_type := .Leaf, old_hash := hashN 1, old_value := hashN 2,
    new_hash_type := .Leaf, new_hash := hashN 3, new_value := hashN 4,
    key := Hash.zero, new_root := Hash.zero }

/-- Second row forming the illegal `Leaf → Middle` chain after `rowTypeHd`. -/
def rowTypeTlBad : Row :=
  { is_first := false, sib := Hash.zero, depth := 1, path := 0, path_acc := 0,
    old_hash_type := .Middle, old_hash := hashN 2, old_value := hashN 5,
    new_hash_type := .Middle, new_hash := hashN 4, new_value := hashN 6,
    key := Hash.zero, new_root := Hash.zero }

/-- A single row with the illegal within-row pair `(Empty, Empty)`. -/
def rowWithinBad : Row :=
  { rowLeafInsert with
    new_hash_type := .Empty, new_hash := Hash.zero, new_value := Hash.zero }

/-- C4: when `verify` returns a verdict and some non-first row `i + 1` forms,
with row `i`, an old-type or new-type pair outside the fixed 9-element chain
allow-list, the verdict is `false`. -/
theorem claim_C4 (rows : List Row) (b : Bool) (hv : verify rows = some b)
    (i : Nat) (h : i + 1 < rows.length)
    (hnf : rows[i + 1].is_first = false)
    (hbad : (rows[i].old_hash_type, rows[i + 1].old_hash_type) ∉
              ([(.Middle, .Middle), (.Middle, .Empty), (.Middle, .Leaf),
                (.Middle, .LeafExt), (.Middle, .LeafExtFinal),
                (.LeafExt, .LeafExt), (.LeafExt, .LeafExtFinal),
                (.LeafExtFinal, .Empty), (.LeafExtFinal, .Leaf)] :
                List (HashType × HashType)) ∨
            (rows[i].new_hash_type, rows[i + 1].new_hash_type) ∉
              ([(.Middle, .Middle), (.Middle, .Empty), (.Middle, .Leaf),
                (.Middle, .LeafExt), (.Middle, .LeafExtFinal),
                (.LeafExt, .LeafExt), (.LeafExt, .LeafExtFinal),
                (.LeafExtFinal, .Empty), (.LeafExtFinal, .Leaf)] :
                List (HashType × HashType))) :
    b = false := by
  rw [show ([(.Middle, .Middle), (.Middle, .Empty), (.Middle, .Leaf),
        (.Middle, .LeafExt), (.Middle, .LeafExtFinal), (.LeafExt, .LeafExt),
        (.LeafExt, .LeafExtFinal), (.LeafExtFinal, .Empty),
        (.LeafExtFinal, .Leaf)] : List (HashType × HashType))
      = VALID_TRANSACTION from rfl] at hbad
  have hne : rows ≠ [] := by intro h0; rw [h0] at h; simp at h
  have hb := verify_some_eq rows b hv hne
  have hp2 : pass2 rows = false := by
    apply all_eq_false_of_mem (mem_enum_of_lt rows (i + 1) h)
    show (part2_1Body rows (i + 1) (rows.get ⟨i + 1, h⟩)).getD false = false
    have hget : rows.get ⟨i + 1, h⟩ = rows[i + 1] := by simp [List.get_eq_getElem]
    rw [hget, part2_1Body, if_neg (by simp [hnf]), getPrev_eq rows (i + 1) (by omega) h]
    simp only [Option.map_some', Option.getD_some, List.get_eq_getElem,
      Nat.add_sub_cancel]
    rcases hbad with hb1 | hb2
    · simp [decide_eq_false hb1]
    · simp [decide_eq_false hb2]
  rw [hb, hp2]
  simp

/-- C4, witness: a trace with a `Leaf → Middle` old-type chain gets verdict
`false`. -/
theorem claim_C4_witness :
    verify [rowTypeHd, rowTypeTlBad] = some false ∧ (false : Bool) = false :=
  ⟨by decide,
   claim_C4 [rowTypeHd, rowTypeTlBad] false (by decide) 0 (by decide)
     (by decide) (by decide)⟩

/-- C5: when `verify` returns a verdict and any row (at any position,
`is_first` or not) carries an `(old_hash_type, new_hash_type)` pair outside
the fixed 8-element within-row allow-list, the verdict is `false`. -/
theorem claim_C5 (rows : List Row) (b : Bool) (hv : verify rows = some b)
    (i : Nat) (h : i < rows.length)
    (hbad : (rows[i].old_hash_type, rows[i].new_hash_type) ∉
      ([(.Empty, .Leaf), (.Leaf, .Empty), (.Leaf, .Leaf),
        (.Middle, .LeafExtFinal), (.LeafExtFinal, .Middle),
        (.Middle, .LeafExt), (.LeafExt, .Middle), (.Middle, .Middle)] :
        List (HashType × HashType))) :
    b = false := by
  rw [show ([(.Empty, .Leaf), (.Leaf, .Empty), (.Leaf, .Leaf),
        (.Middle, .LeafExtFinal), (.LeafExtFinal, .Middle),
        (.Middle, .LeafExt), (.LeafExt, .Middle), (.Middle, .Middle)] :
        List (HashType × HashType)) = VALID_TRANSITIONS from rfl] at hbad
  have hne : rows ≠ [] := by intro h0; rw [h0] at h; simp at h
  have hb := verify_some_eq rows b hv hne
  have hp : rows.all part2_2Body = false := by
    apply all_eq_false_of_mem (List.getElem_mem h)
    rw [part2_2Body]
    exact decide_eq_false hbad
  rw [hb, hp]
  simp

/-- C5, witness: a single-row trace with the within-row pair
`(Empty, Empty)` gets verdict `false`. -/
theorem claim_C5_witness :
    verify [rowWithinBad] = some false ∧ (false : Bool) = false :=
  ⟨by decide,
   claim_C5 [rowWithinBad] false (by decide) 0 (by decide) (by decide)⟩

/-- When `verify` returns a verdict on a non-empty trace, the first row is
`is_first` (otherwise it would have panicked). -/
theorem first_row_is_first (rows : List Row) (b : Bool) (hv : verify rows = some b)
    (h0 : 0 < rows.length) : rows[0].is_first = true := by
  have hne : rows ≠ [] := by intro hh; rw [hh] at h0; simp at h0
  obtain ⟨hd, tl, rfl⟩ := List.exists_cons_of_ne_nil hne
  cases hf : hd.is_first with
  | false => rw [verify_cons_panic hd tl hf] at hv; cases hv
  | true => simpa using hf

/-- Value of the part-4 check at an `is_first` row. -/
theorem part4_getD_first (rows : List Row) (i : Nat) (h : i < rows.length)
    (hf : rows[i].is_first = true) :
    (part4Body rows i (rows.get ⟨i, h⟩)).getD false =
      (pathOkOld rows[i] && pathOkNew rows[i] && decide (rows[i].depth = 0) &&
        keyOk rows i rows[i]) := by
  have hget : rows.get ⟨i, h⟩ = rows[i] := by simp [List.get_eq_getElem]
  rw [hget, part4Body, if_pos hf]
  rfl

/-- Value of the part-4 check at a non-first row with a predecessor. -/
theorem part4_getD_nonfirst (rows : List Row) (i : Nat) (h : i < rows.length)
    (h0 : i ≠ 0) (hf : rows[i].is_first = false) :
    (part4Body rows i (rows.get ⟨i, h⟩)).getD false =
      (pathOkOld rows[i] && pathOkNew rows[i] &&
        decide (rows[i].depth = (rows.get ⟨i - 1, by omega⟩).depth + 1) &&
        keyOk rows i rows[i]) := by
  have hget : rows.get ⟨i, h⟩ = rows[i] := by simp [List.get_eq_getElem]
  rw [hget, part4Body, if_neg (by simp [hf]), getPrev_eq rows i h0 h]
  simp only [Option.map_some', Option.getD_some]

/-- The part-4 pass fails whenever its check at some row ends in a false
conjunct that is present in both the `is_first` and the chained branch. -/
theorem pass4_false_at (rows : List Row) (b : Bool) (hv : verify rows = some b)
    (i : Nat) (h : i < rows.length)
    (hfb : pathOkOld rows[i] = false ∨ pathOkNew rows[i] = false ∨
      keyOk rows i rows[i] = false) :
    pass4 rows = false := by
  apply all_eq_false_of_mem (mem_enum_of_lt rows i h)
  show (part4Body rows i (rows.get ⟨i, h⟩)).getD false = false
  cases hf : rows[i].is_first with
  | true =>
    rw [part4_getD_first rows i h hf]
    rcases hfb with hx | hx | hx <;> simp [hx]
  | false =>
    have h0 : i ≠ 0 := by
      intro h0
      subst h0
      rw [first_row_is_first rows b hv (by omega)] at hf
      cases hf
    rw [part4_getD_nonfirst rows i h h0 hf]
    rcases hfb with hx | hx | hx <;> simp [hx]

/-- Head of a chained trace whose non-terminal row has `path_acc` unequal to
its key (allowed: the key check only applies to operation-ending rows). -/
def rowKeyFreeHd : Row :=
  { is_first := true, sib := Hash.zero, depth := 0, path := 0, path_acc := 5,
    old_hash_type := .Middle, old_hash := hashN 9, old_value := hashN 1,
    new_hash_type := .Middle, new_hash := hashN 10, new_value := hashN 2,
    key := Hash.zero, new_root := Hash.zero }

/-- Terminal row chained under `rowKeyFreeHd`, with a correct key check. -/
def rowKeyFreeTl : Row :=
  { is_first := false, sib := Hash.zero, depth := 1, path := 0, path_acc := 0,
    old_hash_type := .Leaf, old_hash := hashN 1, old_value := hashN 3,
    new_hash_type := .Leaf, new_hash := hashN 2, new_value := hashN 4,
    key := Hash.zero, new_root := Hash.zero }

/-- A single terminal row whose `path_acc` disagrees with its key. -/
def rowKeyBad : Row :=
  { rowLeafInsert with path_acc := 3 }

/-- C3: when `verify` returns a verdict and some operation-ending row (last
row, or one whose successor is `is_first`) has a key whose little-endian
big-integer value differs from `path_acc`, the verdict is `false`; and rows
that do not end an operation are not subject to the key check: a trace whose
first row has `path_acc ≠ key` but is followed by a non-first row still
verifies `true`. -/
theorem claim_C3 (rows : List Row) (b : Bool) (hv : verify rows = some b)
    (i : Nat) (h : i < rows.length)
    (hend : i + 1 = rows.length ∨
      ∃ h2 : i + 1 < rows.length, rows[i + 1].is_first = true)
    (hbad : Hash.toNat rows[i].key ≠ rows[i].path_acc) :
    b = false ∧ ∃ r0 r1, verify [r0, r1] = some true ∧ r1.is_first = false ∧
      Hash.toNat r0.key ≠ r0.path_acc := by
  refine ⟨?_, rowKeyFreeHd, rowKeyFreeTl, by decide, by decide, by decide⟩
  have hne : rows ≠ [] := by intro h0; rw [h0] at h; simp at h
  have hb := verify_some_eq rows b hv hne
  have hkey : keyOk rows i rows[i] = false := by
    unfold keyOk
    rcases hend with hlast | ⟨h2, hfn⟩
    · rw [if_pos (by omega)]
      exact decide_eq_false hbad
    · rw [if_neg (by omega), List.getElem?_eq_getElem h2]
      simp [hfn, decide_eq_false hbad]
  have hp4 := pass4_false_at rows b hv i h (Or.inr (Or.inr hkey))
  rw [hb, hp4]
  simp

/-- C3, witness: a single-row trace with `path_acc = 3` but zero key gets
verdict `false`. -/
theorem claim_C3_witness :
    verify [rowKeyBad] = some false ∧ (false : Bool) = false :=
  ⟨by decide,
   (claim_C3 [rowKeyBad] false (by decide) 0 (by decide) (Or.inl (by decide))
      (by decide)).1⟩

/-- A valid single-row trace with `Middle` types on both sides: none of the
shape equalities of part 3 is imposed on it. -/
def rowMidFree : Row :=
  { is_first := true, sib := hashN 5, depth := 0, path := 0, path_acc := 0,
    old_hash_type := .Middle, old_hash := hashN 1, old_value := hashN 2,
    new_hash_type := .Middle, new_hash := hashN 3, new_value := hashN 4,
    key := Hash.zero, new_root := Hash.zero }

/-- A valid single-row trace with `Leaf` types on both sides: no shape
constraint, and `path` free (here 3). -/
def rowLeafFree : Row :=
  { rowMidFree with
    old_hash_type := .Leaf, new_hash_type := .Leaf, path := 3 }

/-- A single `Empty`-typed row whose `old_hash` is not the zero hash. -/
def rowShapeBad : Row :=
  { rowLeafInsert with old_hash := hashN 6 }

/-- C6: when `verify` returns a verdict and some row violates a shape
equality — `Empty` with non-zero hash, `LeafExt` with `value ≠ hash`, or
`LeafExtFinal` with `sib ≠ hash`, on either the old or the new side — the
verdict is `false`; and `Middle` and `Leaf` rows carry no shape constraint:
single-row traces of either type verify `true` with all those equalities
broken at once. -/
theorem claim_C6 (rows : List Row) (b : Bool) (hv : verify rows = some b)
    (i : Nat) (h : i < rows.length)
    (hbad : (rows[i].old_hash_type = .Empty ∧ rows[i].old_hash ≠ Hash.zero) ∨
        (rows[i].old_hash_type = .LeafExt ∧ rows[i].old_value ≠ rows[i].old_hash) ∨
        (rows[i].old_hash_type = .LeafExtFinal ∧ rows[i].sib ≠ rows[i].old_hash) ∨
        (rows[i].new_hash_type = .Empty ∧ rows[i].new_hash ≠ Hash.zero) ∨
        (rows[i].new_hash_type = .LeafExt ∧ rows[i].new_value ≠ rows[i].new_hash) ∨
        (rows[i].new_hash_type = .LeafExtFinal ∧ rows[i].sib ≠ rows[i].new_hash)) :
    b = false ∧
      (∃ r, verify [r] = some true ∧ r.old_hash_type = .Middle ∧
        r.new_hash_type = .Middle ∧ r.old_hash ≠ Hash.zero ∧
        r.old_value ≠ r.old_hash ∧ r.sib ≠ r.old_hash ∧ r.new_hash ≠ Hash.zero ∧
        r.new_value ≠ r.new_hash ∧ r.sib ≠ r.new_hash) ∧
      (∃ r, verify [r] = some true ∧ r.old_hash_type = .Leaf ∧
        r.new_hash_type = .Leaf ∧ r.old_hash ≠ Hash.zero ∧
        r.old_value ≠ r.old_hash ∧ r.sib ≠ r.old_hash ∧ r.new_hash ≠ Hash.zero ∧
        r.new_value ≠ r.new_hash ∧ r.sib ≠ r.new_hash) := by
  refine ⟨?_,
    ⟨rowMidFree, by decide, by decide, by decide, by decide, by decide,
      by decide, by decide, by decide, by decide⟩,
    ⟨rowLeafFree, by decide, by decide, by decide, by decide, by decide,
      by decide, by decide, by decide, by decide⟩⟩
  have hne : rows ≠ [] := by intro h0; rw [h0] at h; simp at h
  have hb := verify_some_eq rows b hv hne
  have hp : rows.all part3Body = false := by
    apply all_eq_false_of_mem (List.getElem_mem h)
    rcases hbad with ⟨ht, hx⟩ | ⟨ht, hx⟩ | ⟨ht, hx⟩ | ⟨ht, hx⟩ | ⟨ht, hx⟩ | ⟨ht, hx⟩ <;>
      simp [part3Body, oldShapeOk, newShapeOk, ht, hx]
  rw [hb, hp]
  simp

/-- C6, witness: an `Empty`-typed row with non-zero `old_hash` gets verdict
`false`. -/
theorem claim_C6_witness :
    verify [rowShapeBad] = some false ∧ (false : Bool) = false :=
  ⟨by decide,
   (claim_C6 [rowShapeBad] false (by decide) 0 (by decide)
      (Or.inl (by decide))).1⟩

/-- A valid single-row leaf insert whose `path` is 7: `path` is not
constrained when the types are only `Empty` or `Leaf`. -/
def rowPathFree : Row :=
  { rowLeafInsert with path := 7 }

/-- A single `is_first` row with non-zero depth. -/
def rowDepthBad : Row :=
  { rowLeafInsert with depth := 1 }

/-- C7: when `verify` returns a verdict: a row with a `Middle`, `LeafExt` or
`LeafExtFinal` type on either side and `path` outside {0, 1} forces verdict
`false`; an `is_first` row with non-zero depth forces `false`; a non-first
row whose depth is not its predecessor's depth plus one forces `false`; and
`path` is unconstrained for rows whose types are only `Empty` or `Leaf` (a
valid trace with `path = 7` exists). -/
theorem claim_C7 (rows : List Row) (b : Bool) (hv : verify rows = some b) :
    (∀ i (h : i < rows.length),
        (rows[i].old_hash_type = .Middle ∨ rows[i].old_hash_type = .LeafExt ∨
         rows[i].old_hash_type = .LeafExtFinal ∨
         rows[i].new_hash_type = .Middle ∨ rows[i].new_hash_type = .LeafExt ∨
         rows[i].new_hash_type = .LeafExtFinal) →
        rows[i].path ≠ 0 → rows[i].path ≠ 1 → b = false) ∧
    (∀ i (h : i < rows.length),
        rows[i].is_first = true → rows[i].depth ≠ 0 → b = false) ∧
    (∀ i (h : i + 1 < rows.length),
        rows[i + 1].is_first = false →
        rows[i + 1].depth ≠ rows[i].depth + 1 → b = false) ∧
    (∃ r, verify [r] = some true ∧ r.old_hash_type = .Empty ∧
        r.new_hash_type = .Leaf ∧ r.path = 7) := by
  refine ⟨?_, ?_, ?_, ⟨rowPathFree, by decide, by decide, by decide, by decide⟩⟩
  · intro i h htype hp0 hp1
    have hne : rows ≠ [] := by intro h0; rw [h0] at h; simp at h
    have hb := verify_some_eq rows b hv hne
    have hpOk : pathOkOld rows[i] = false ∨ pathOkNew rows[i] = false := by
      rcases htype with ht | ht | ht | ht | ht | ht
      · exact Or.inl (by simp [pathOkOld, ht, hp0, hp1])
      · exact Or.inl (by simp [pathOkOld, ht, hp0, hp1])
      · exact Or.inl (by simp [pathOkOld, ht, hp0, hp1])
      · exact Or.inr (by simp [pathOkNew, ht, hp0, hp1])
      · exact Or.inr (by simp [pathOkNew, ht, hp0, hp1])
      · exact Or.inr (by simp [pathOkNew, ht, hp0, hp1])
    have hp4 := pass4_false_at rows b hv i h
      (by rcases hpOk with hx | hx; exacts [Or.inl hx, Or.inr (Or.inl hx)])
    rw [hb, hp4]
    simp
  · intro i h hf hd0
    have hne : rows ≠ [] := by intro h0; rw [h0] at h; simp at h
    have hb := verify_some_eq rows b hv hne
    have hp4 : pass4 rows = false := by
      apply all_eq_false_of_mem (mem_enum_of_lt rows i h)
      show (part4Body rows i (rows.get ⟨i, h⟩)).getD false = false
      rw [part4_getD_first rows i h hf]
      simp [hd0]
    rw [hb, hp4]
    simp
  · intro i h hnf hdd
    have hne : rows ≠ [] := by intro h0; rw [h0] at h; simp at h
    have hb := verify_some_eq rows b hv hne
    have hp4 : pass4 rows = false := by
      apply all_eq_false_of_mem (mem_enum_of_lt rows (i + 1) h)
      show (part4Body rows (i + 1) (rows.get ⟨i + 1, h⟩)).getD false = false
      rw [part4_getD_nonfirst rows (i + 1) h (by omega) hnf]
      simp only [List.get_eq_getElem, Nat.add_sub_cancel]
      simp [hdd]
    rw [hb, hp4]
    simp

/-- C7, witness: a single `is_first` row at depth 1 gets verdict `false`. -/
theorem claim_C7_witness :
    verify [rowDepthBad] = some false ∧ (false : Bool) = false :=
  ⟨by decide,
   (claim_C7 [rowDepthBad] false (by decide)).2.1 0 (by decide) (by decide)
     (by decide)⟩

/-- Erase the one field `verify` never reads. -/
def clearRoot (r : Row) : Row :=
  { r with new_root := Hash.zero }

/-- Two rows identical in every field except possibly `new_root`. -/
def AgreeExceptRoot (r r' : Row) : Prop :=
  r.is_first = r'.is_first ∧ r.sib = r'.sib ∧ r.depth = r'.depth ∧
  r.path = r'.path ∧ r.path_acc = r'.path_acc ∧
  r.old_hash_type = r'.old_hash_type ∧ r.old_hash = r'.old_hash ∧
  r.old_value = r'.old_value ∧ r.new_hash_type = r'.new_hash_type ∧
  r.new_hash = r'.new_hash ∧ r.new_value = r'.new_value ∧ r.key = r'.key

/-- Rows agreeing outside `new_root` agree after erasing `new_root`. -/
theorem clearRoot_eq_of_agree {r r' : Row} (h : AgreeExceptRoot r r') :
    clearRoot r = clearRoot r' := by
  cases r; cases r'
  simp_all [AgreeExceptRoot, clearRoot]

/-- Pointwise agreement outside `new_root` gives equal `clearRoot` images. -/
theorem map_clearRoot_eq (rows rows' : List Row)
    (h : List.Forall₂ AgreeExceptRoot rows rows') :
    rows.map clearRoot = rows'.map clearRoot := by
  induction h with
  | nil => rfl
  | cons hab _ ih => simp only [List.map_cons, ih, clearRoot_eq_of_agree hab]

/-- `self[idx - 1]` commutes with erasing `new_root` from every row. -/
theorem getPrev_map_clearRoot (rows : List Row) (idx : Nat) :
    getPrev (rows.map clearRoot) idx = (getPrev rows idx).map clearRoot := by
  unfold getPrev
  split
  · rfl
  · rw [List.getElem?_map]

/-- The terminal key check ignores `new_root`. -/
theorem keyOk_map_clearRoot (rows : List Row) (idx : Nat) (row : Row) :
    keyOk (rows.map clearRoot) idx (clearRoot row) = keyOk rows idx row := by
  unfold keyOk
  rw [List.length_map, List.getElem?_map]
  cases rows[idx + 1]? <;> simp [clearRoot]

/-- The part-1 check ignores `new_root`. -/
theorem part1Body_map_clearRoot (rows : List Row) (idx : Nat) (row : Row) :
    part1Body (rows.map clearRoot) idx (clearRoot row) = part1Body rows idx row := by
  unfold part1Body
  rw [getPrev_map_clearRoot]
  cases getPrev rows idx <;> simp [clearRoot]

/-- The part-2.1 check ignores `new_root`. -/
theorem part2_1Body_map_clearRoot (rows : List Row) (idx : Nat) (row : Row) :
    part2_1Body (rows.map clearRoot) idx (clearRoot row)
      = part2_1Body rows idx row := by
  unfold part2_1Body
  rw [getPrev_map_clearRoot]
  cases getPrev rows idx <;> simp [clearRoot]

/-- The part-4 check ignores `new_root`. -/
theorem part4Body_map_clearRoot (rows : List Row) (idx : Nat) (row : Row) :
    part4Body (rows.map clearRoot) idx (clearRoot row)
      = part4Body rows idx row := by
  unfold part4Body
  rw [getPrev_map_clearRoot, keyOk_map_clearRoot]
  have hOld : pathOkOld (clearRoot row) = pathOkOld row := rfl
  have hNew : pathOkNew (clearRoot row) = pathOkNew row := rfl
  rw [hOld, hNew]
  cases getPrev rows idx <;> simp [clearRoot]

/-- `List.foldlM` only depends on the applied function pointwise. -/
theorem foldlM_congr_fn {α β : Type} (l : List α) (f g : β → α → Option β)
    (b : β) (h : ∀ x y, f x y = g x y) : l.foldlM f b = l.foldlM g b := by
  have hfg : f = g := funext fun x => funext fun y => h x y
  rw [hfg]

/-- A pass of `verify` over root-erased rows equals the pass over the
original rows whenever the bodies correspond. -/
theorem checkAll_map_clearRoot (rows : List Row)
    (body bodyPlain : Nat → Row → Option Bool)
    (h : ∀ idx row, body idx (clearRoot row) = bodyPlain idx row) :
    checkAll (rows.map clearRoot) body = checkAll rows bodyPlain := by
  unfold checkAll
  rw [List.enum_map, List.foldlM_map]
  apply foldlM_congr_fn
  intro v p
  rcases p with ⟨idx, row⟩
  simp [h idx row]

/-- `verify` never reads `new_root`: erasing it from every row does not
change the outcome (verdict or panic). -/
theorem verify_map_clearRoot (rows : List Row) :
    verify (rows.map clearRoot) = verify rows := by
  unfold verify
  have hemp : (rows.map clearRoot).isEmpty = rows.isEmpty := by
    cases rows <;> rfl
  rw [hemp]
  by_cases he : rows.isEmpty = true
  · rw [if_pos he, if_pos he]
  · rw [if_neg he, if_neg he,
      checkAll_map_clearRoot rows _ _ (part1Body_map_clearRoot rows),
      checkAll_map_clearRoot rows _ _ (part2_1Body_map_clearRoot rows),
      checkAll_map_clearRoot rows _ _ (part4Body_map_clearRoot rows),
      List.all_map, List.all_map,
      show part2_2Body ∘ clearRoot = part2_2Body from funext fun _ => rfl,
      show part3Body ∘ clearRoot = part3Body from funext fun _ => rfl]

/-- A copy of the leaf-insert row with a different `new_root`. -/
def rowRootVariant : Row :=
  { rowLeafInsert with new_root := hashN 9 }

/-- C10: `verify` never examines `new_root` — on two row sequences that are
pointwise identical except in `new_root`, it produces the same outcome. -/
theorem claim_C10 (rows rows' : List Row)
    (hagree : List.Forall₂ AgreeExceptRoot rows rows') :
    verify rows = verify rows' := by
  rw [← verify_map_clearRoot rows, ← verify_map_clearRoot rows',
    map_clearRoot_eq rows rows' hagree]

/-- C10, witness: two single-row traces differing only in `new_root` get the
same outcome. -/
theorem claim_C10_witness :
    List.Forall₂ AgreeExceptRoot [rowLeafInsert] [rowRootVariant] ∧
      verify [rowLeafInsert] = verify [rowRootVariant] :=
  ⟨List.Forall₂.cons
      ⟨rfl, rfl, rfl, rfl, rfl, rfl, rfl, rfl, rfl, rfl, rfl, rfl⟩
      List.Forall₂.nil,
   claim_C10 [rowLeafInsert] [rowRootVariant]
     (List.Forall₂.cons
       ⟨rfl, rfl, rfl, rfl, rfl, rfl, rfl, rfl, rfl, rfl, rfl, rfl⟩
       List.Forall₂.nil)⟩

/-- Modelled from the spec: the value of one hexadecimal digit, as used by
the `hex` crate's `decode_to_slice` (the crate is a dependency of the
repository, its source is not under `src/`); per the spec, hash decoding is
case-insensitive over `[0-9a-fA-F]`. -/
def hexVal (c : Char) : Option Nat :=
  if '0' ≤ c ∧ c ≤ '9' then some (c.toNat - '0'.toNat)
  else if 'a' ≤ c ∧ c ≤ 'f' then some (c.toNat - 'a'.toNat + 10)
  else if 'A' ≤ c ∧ c ≤ 'F' then some (c.toNat - 'A'.toNat + 10)
  else none

/-- Modelled from the spec: byte-pair hexadecimal decoding as performed by
`hex::decode_to_slice` — two digits per byte, failing on a stray trailing
digit or any non-hex character. -/
def hexDecodeBytes : List Char → Option (List Nat)
  | [] => some []
  | [_] => none
  | c1 :: c2 :: rest => do
      let hi ← hexVal c1
      let lo ← hexVal c2
      let bs ← hexDecodeBytes rest
      pure ((16 * hi + lo) :: bs)

/-- `TryFrom<&str> for Hash`: `hex::decode_to_slice(value, &mut [u8; 32])`,
which fails unless the input decodes to exactly 32 bytes (64 characters). -/
def hashTryFrom (s : List Char) : Option Hash :=
  if s.length = 64 then (hexDecodeBytes s).map fun bs => ⟨bs⟩ else none

/-- Modelled from the spec: `BigUint::parse_bytes(bytes, 2)` used for `path`
and `path_acc` (the `num-bigint` crate is a dependency, not under `src/`);
per the spec, it parses a non-empty string of binary digits and fails on an
empty string or any character outside `{0, 1}`. -/
def parseBinary (t : List Char) : Option Nat :=
  if t = [] then none
  else t.foldlM (fun acc c =>
    if c = '0' then some (2 * acc)
    else if c = '1' then some (2 * acc + 1)
    else none) 0

/-- A character has a hex value exactly when it lies in `[0-9a-fA-F]`. -/
theorem hexVal_isSome (c : Char) :
    (hexVal c).isSome = true ↔
      ('0' ≤ c ∧ c ≤ '9') ∨ ('a' ≤ c ∧ c ≤ 'f') ∨ ('A' ≤ c ∧ c ≤ 'F') := by
  unfold hexVal
  by_cases h1 : '0' ≤ c ∧ c ≤ '9'
  · simp [h1]
  · by_cases h2 : 'a' ≤ c ∧ c ≤ 'f'
    · simp [h1, h2]
    · by_cases h3 : 'A' ≤ c ∧ c ≤ 'F'
      · simp [h1, h2, h3]
      · simp [h1, h2, h3]

/-- Pair decoding succeeds on an even-length all-hex string. -/
theorem hexDecodeBytes_isSome_of :
    ∀ s : List Char, (∀ c ∈ s, (hexVal c).isSome = true) → s.length % 2 = 0 →
      (hexDecodeBytes s).isSome = true := by
  intro s
  induction s using hexDecodeBytes.induct with
  | case1 => intro _ _; simp [hexDecodeBytes]
  | case2 c => intro _ heven; simp at heven
  | case3 c1 c2 rest ih =>
    intro hall heven
    obtain ⟨v1, h1⟩ := Option.isSome_iff_exists.mp (hall c1 (by simp))
    obtain ⟨v2, h2⟩ := Option.isSome_iff_exists.mp (hall c2 (by simp))
    have hrest : (hexDecodeBytes rest).isSome = true := by
      apply ih (fun c hc => hall c (by simp [hc]))
      simp at heven
      omega
    obtain ⟨bs, h3⟩ := Option.isSome_iff_exists.mp hrest
    simp [hexDecodeBytes, h1, h2, h3]

/-- Pair decoding only succeeds when every character is a hex digit. -/
theorem all_hex_of_isSome :
    ∀ s : List Char, (hexDecodeBytes s).isSome = true →
      ∀ c ∈ s, (hexVal c).isSome = true := by
  intro s
  induction s using hexDecodeBytes.induct with
  | case1 => intro _ c hc; cases hc
  | case2 c => intro hs; simp [hexDecodeBytes] at hs
  | case3 c1 c2 rest ih =>
    intro hs
    cases h1 : hexVal c1 with
    | none => rw [hexDecodeBytes, h1] at hs; simp at hs
    | some v1 =>
      cases h2 : hexVal c2 with
      | none => rw [hexDecodeBytes, h1, h2] at hs; simp at hs
      | some v2 =>
        cases h3 : hexDecodeBytes rest with
        | none => rw [hexDecodeBytes, h1, h2, h3] at hs; simp at hs
        | some bs =>
          intro c hc
          rcases List.mem_cons.mp hc with rfl | hc2
          · simp [h1]
          · rcases List.mem_cons.mp hc2 with rfl | hc3
            · simp [h2]
            · exact ih (by simp [h3]) c hc3

/-- The binary fold succeeds exactly when every character is `0` or `1`. -/
theorem binFold_isSome :
    ∀ (t : List Char) (acc : Nat),
      ((t.foldlM (fun acc c =>
          if c = '0' then some (2 * acc)
          else if c = '1' then some (2 * acc + 1)
          else none) acc).isSome = true)
        ↔ ∀ c ∈ t, c = '0' ∨ c = '1' := by
  intro t
  induction t with
  | nil => intro acc; simp
  | cons c t ih =>
    intro acc
    rw [List.foldlM_cons]
    by_cases h0 : c = '0'
    · simp [h0, ih]
    · by_cases h1 : c = '1'
      · simp [h0, h1, ih]
      · simp [h0, h1]

/-- C8: hash decoding succeeds iff the string is exactly 64 characters from
`[0-9a-fA-F]`; binary big-integer decoding (for `path` and `path_acc`)
succeeds iff the string is non-empty and drawn from `{0, 1}`. -/
theorem claim_C8 (s t : List Char) :
    ((hashTryFrom s).isSome = true ↔
      s.length = 64 ∧ ∀ c ∈ s,
        ('0' ≤ c ∧ c ≤ '9') ∨ ('a' ≤ c ∧ c ≤ 'f') ∨ ('A' ≤ c ∧ c ≤ 'F')) ∧
    ((parseBinary t).isSome = true ↔ t ≠ [] ∧ ∀ c ∈ t, c = '0' ∨ c = '1') := by
  constructor
  · unfold hashTryFrom
    by_cases hlen : s.length = 64
    · rw [if_pos hlen]
      have hmap : ∀ o : Option (List Nat),
          (o.map fun bs => (⟨bs⟩ : Hash)).isSome = o.isSome := by
        intro o; cases o <;> rfl
      rw [hmap]
      constructor
      · intro hs
        exact ⟨hlen, fun c hc => (hexVal_isSome c).mp (all_hex_of_isSome s hs c hc)⟩
      · rintro ⟨-, hall⟩
        exact hexDecodeBytes_isSome_of s
          (fun c hc => (hexVal_isSome c).mpr (hall c hc)) (by omega)
    · rw [if_neg hlen]
      simp [hlen]
  · unfold parseBinary
    by_cases ht : t = []
    · subst ht; simp
    · rw [if_neg ht, binFold_isSome t 0]
      simp [ht]

/-- C8, witness: 64 letters `a` decode as a Hash, and the string `10` parses
as a binary integer. -/
theorem claim_C8_witness :
    (hashTryFrom (List.replicate 64 'a')).isSome = true ∧
      (parseBinary ['1', '0']).isSome = true :=
  ⟨(claim_C8 (List.replicate 64 'a') ['1', '0']).1.mpr (by decide),
   (claim_C8 (List.replicate 64 'a') ['1', '0']).2.mpr (by decide)⟩

end Mpt
